import Mathlib

/-!
Verification of the selji-workflow-engine core algorithms: the secret cipher
envelope (AES-256-GCM via the Node crypto library, modelled abstractly as an
AEAD primitive, with the envelope serialization embedded concretely), the
SigV4-style request signer key chain, the short-URL expansion pipeline
(robustFetch retry/backoff plus ASIN extraction), and the PA-API request gate.

Bytes are modelled as `Nat` values below 256.  JavaScript strings are
modelled as `String` / `List Char`.  Library primitives (AES-GCM, UTF-8
buffers, HMAC-SHA256) are parameters of the embedding; the repository's own
logic (envelope layout, split/destructure, retry loop, regex scanning,
request gating) is translated concretely from the source.
-/

/-- Base64 alphabet, in the standard order used by Node's Buffer base64
encoding. -/
def b64Alphabet : List Char :=
  ['A','B','C','D','E','F','G','H','I','J','K','L','M',
   'N','O','P','Q','R','S','T','U','V','W','X','Y','Z',
   'a','b','c','d','e','f','g','h','i','j','k','l','m',
   'n','o','p','q','r','s','t','u','v','w','x','y','z',
   '0','1','2','3','4','5','6','7','8','9','+','/']

/-- Character for a 6-bit group. -/
def b64Char (n : Nat) : Char := b64Alphabet.getD n 'A'

/-- Reverse lookup: value of a base64 data character, `none` for characters
outside the alphabet (including padding and the envelope delimiter). -/
def b64Val (c : Char) : Option Nat :=
  List.findIdx? (fun x => x = c) b64Alphabet

/-- Base64 encoding of a byte list, with padding, as produced by
Buffer.toString with base64 encoding. -/
def b64EncodeBytes : List Nat → List Char
  | [] => []
  | [b1] => [b64Char (b1 / 4), b64Char (b1 % 4 * 16), '=', '=']
  | [b1, b2] => [b64Char (b1 / 4), b64Char (b1 % 4 * 16 + b2 / 16),
                 b64Char (b2 % 16 * 4), '=']
  | b1 :: b2 :: b3 :: rest =>
      b64Char (b1 / 4) :: b64Char (b1 % 4 * 16 + b2 / 16) ::
      b64Char (b2 % 16 * 4 + b3 / 64) :: b64Char (b3 % 64) ::
      b64EncodeBytes rest

/-- Reassemble bytes from a list of 6-bit group values, dropping the
trailing bits that do not fill a whole byte (Node's lenient decoder). -/
def b64DecodeVals : List Nat → List Nat
  | g1 :: g2 :: g3 :: g4 :: rest =>
      (g1 * 4 + g2 / 16) :: (g2 % 16 * 16 + g3 / 4) :: (g3 % 4 * 64 + g4) ::
      b64DecodeVals rest
  | [g1, g2] => [g1 * 4 + g2 / 16]
  | [g1, g2, g3] => [g1 * 4 + g2 / 16, g2 % 16 * 16 + g3 / 4]
  | _ => []

/-- Base64 decoding as Buffer.from with base64 encoding performs it:
non-alphabet characters (padding included) are ignored, the remaining
6-bit groups are packed into bytes. -/
def b64DecodeChars (cs : List Char) : List Nat :=
  b64DecodeVals (cs.filterMap b64Val)

/-- JavaScript String.split with separator colon, over a character list:
every maximal (possibly empty) run between colons becomes a segment. -/
def splitColon : List Char → List (List Char)
  | [] => [[]]
  | c :: rest =>
    if c = ':' then [] :: splitColon rest
    else
      match splitColon rest with
      | s :: ss => (c :: s) :: ss
      | [] => [[c]]

/-- Byte-level codec for JavaScript string/Buffer conversions (Node's
Buffer UTF-8 encode and its total, lossy decode).  A parameter of the
embedding, since the codec lives in the Node runtime, not the repository. -/
structure ByteCodec where
  enc : String → List Nat
  dec : List Nat → String

/-- Authenticated cipher primitive (Node crypto createCipheriv /
createDecipheriv with aes-256-gcm).  `enc key iv plaintextBytes` returns
ciphertext and authentication tag; `dec key iv ciphertext tag` returns
`none` when authentication fails (decipher.final throws).  A parameter of
the embedding. -/
structure AeadCipher where
  enc : List Nat → List Nat → List Nat → List Nat × List Nat
  dec : List Nat → List Nat → List Nat → List Nat → Option (List Nat)

/-- JavaScript String.prototype.slice from zero: the first n characters. -/
def strTake (s : String) (n : Nat) : String := String.mk (s.toList.take n)

/-- JavaScript String.prototype.trim over a character list: strip leading
and trailing whitespace. -/
def trimChars (cs : List Char) : List Char :=
  ((cs.dropWhile Char.isWhitespace).reverse.dropWhile Char.isWhitespace).reverse

/-- JavaScript String.prototype.trim. -/
def jsTrim (s : String) : String := String.mk (trimChars s.toList)

/-- getAesKey from the source: `null` when the passphrase environment value
is unset, empty (falsy), or shorter than 32 characters; otherwise the UTF-8
bytes of its first 32 characters (slice, then Buffer.from with utf8). -/
def getAesKey (C : ByteCodec) (pass : Option String) : Option (List Nat) :=
  match pass with
  | none => none
  | some s =>
    if s = "" ∨ s.length < 32 then none
    else some (C.enc (strTake s 32))

/-- encryptSecret from the source: derive the key (throw, modelled as
`none`, when absent), run AES-256-GCM over the UTF-8 plaintext bytes with
the supplied 12-byte random IV, and join the base64 of IV, ciphertext and
tag with a colon.  The `key.length = 32` guard models createCipheriv's
key-size validation (a thrown TypeError otherwise). -/
def encryptSecret (A : AeadCipher) (C : ByteCodec) (pass : Option String)
    (iv : List Nat) (plaintext : String) : Option (List Char) :=
  match getAesKey C pass with
  | none => none
  | some key =>
    if key.length = 32 then
      let ct := A.enc key iv (C.enc plaintext)
      some (b64EncodeBytes iv ++ ':' ::
            b64EncodeBytes ct.1 ++ ':' :: b64EncodeBytes ct.2)
    else none

/-- decryptSecret from the source: derive the key, split the envelope on
colons and destructure into the first three segments — any further
segments are silently dropped by the destructuring, while fewer than three
leaves an undefined segment and Buffer.from throws (modelled by the
catch-all returning `none`) — then base64-decode the three segments and
run authenticated decryption, failing when the tag does not verify. -/
def decryptSecret (A : AeadCipher) (C : ByteCodec) (pass : Option String)
    (envelope : List Char) : Option String :=
  match getAesKey C pass with
  | none => none
  | some key =>
    if key.length = 32 then
      match splitColon envelope with
      | ivS :: encS :: tagS :: _ =>
        match A.dec key (b64DecodeChars ivS) (b64DecodeChars encS)
            (b64DecodeChars tagS) with
        | some ptBytes => some (C.dec ptBytes)
        | none => none
      | _ => none
    else none

/-- Service name fixed by the signer. -/
def awsService : String := "ProductAdvertisingAPI"

/-- kDate from the source: HMAC-SHA256 keyed by the string AWS4 followed by
the secret key, over the date stamp. -/
def kDate (hmac : List Nat → List Nat → List Nat) (utf8 : String → List Nat)
    (secretKey dateStamp : String) : List Nat :=
  hmac (utf8 ("AWS4" ++ secretKey)) (utf8 dateStamp)

/-- kRegion from the source: HMAC keyed by kDate, over the region. -/
def kRegion (hmac : List Nat → List Nat → List Nat)
    (utf8 : String → List Nat) (secretKey dateStamp region : String) :
    List Nat :=
  hmac (kDate hmac utf8 secretKey dateStamp) (utf8 region)

/-- kService from the source: HMAC keyed by kRegion, over the service
name. -/
def kService (hmac : List Nat → List Nat → List Nat)
    (utf8 : String → List Nat) (secretKey dateStamp region : String) :
    List Nat :=
  hmac (kRegion hmac utf8 secretKey dateStamp region) (utf8 awsService)

/-- kSigning from the source: HMAC keyed by kService, over the literal
aws4_request. -/
def kSigning (hmac : List Nat → List Nat → List Nat)
    (utf8 : String → List Nat) (secretKey dateStamp region : String) :
    List Nat :=
  hmac (kService hmac utf8 secretKey dateStamp region) (utf8 "aws4_request")

/-- Final signature from the source: hex digest of the HMAC of the
string-to-sign under the derived signing key. -/
def paapiSignature (hmac : List Nat → List Nat → List Nat)
    (utf8 : String → List Nat) (toHex : List Nat → String)
    (secretKey dateStamp region stringToSign : String) : String :=
  toHex (hmac (kSigning hmac utf8 secretKey dateStamp region)
    (utf8 stringToSign))

/-- Written from the spec's words (claim C1): the signing key is an
HMAC-SHA256 chain seeded with AWS4 concatenated with the secret key, then
successively keyed by the date stamp, the region, the service name, and
the literal aws4_request, each step's output becoming the next key. -/
def spec_signingKey (hmac : List Nat → List Nat → List Nat)
    (utf8 : String → List Nat) (secretKey dateStamp region : String) :
    List Nat :=
  List.foldl (fun k part => hmac k (utf8 part))
    (utf8 ("AWS4" ++ secretKey))
    [dateStamp, region, awsService, "aws4_request"]

/-- Written from the spec's words (claim C1): the final signature is the
hex HMAC-SHA256 of the string-to-sign under the derived signing key. -/
def spec_signature (hmac : List Nat → List Nat → List Nat)
    (utf8 : String → List Nat) (toHex : List Nat → String)
    (secretKey dateStamp region stringToSign : String) : String :=
  toHex (hmac (spec_signingKey hmac utf8 secretKey dateStamp region)
    (utf8 stringToSign))

/-- Canonical header block from the source (fixed five-header set). -/
def canonicalHeadersOf (host amzDate : String) : String :=
  "content-encoding:amz-1.0\n" ++
  "content-type:application/json; charset=utf-8\n" ++
  "host:" ++ host ++ "\n" ++
  "x-amz-date:" ++ amzDate ++ "\n" ++
  "x-amz-target:com.amazon.paapi5.v1.ProductAdvertisingAPIv1.GetItems\n"

/-- Signed-header list from the source. -/
def signedHeadersList : String :=
  "content-encoding;content-type;host;x-amz-date;x-amz-target"

/-- Canonical request from the source: method, path, empty query string,
header block, signed-header list and payload hash, newline-joined. -/
def canonicalRequestOf (sha256hex : String → String)
    (host path payload amzDate : String) : String :=
  String.intercalate "\n"
    ["POST", path, "", canonicalHeadersOf host amzDate, signedHeadersList,
     sha256hex payload]

/-- Credential scope from the source. -/
def credentialScopeOf (region dateStamp : String) : String :=
  dateStamp ++ "/" ++ region ++ "/" ++ awsService ++ "/aws4_request"

/-- String-to-sign from the source: algorithm tag, timestamp, credential
scope and the hex digest of the canonical request, newline-joined. -/
def stringToSignOf (sha256hex : String → String)
    (host path payload amzDate region : String) : String :=
  String.intercalate "\n"
    ["AWS4-HMAC-SHA256", amzDate,
     credentialScopeOf region (amzDate.take 8),
     sha256hex (canonicalRequestOf sha256hex host path payload amzDate)]

/-- Result record of signPaapiRequest. -/
structure SignResult where
  authorizationHeader : String
  amzDate : String
  payload : String
deriving DecidableEq

/-- signPaapiRequest from the source, parametric over the crypto-library
primitives (HMAC-SHA256 over bytes, UTF-8 encoding, hex digest rendering,
SHA-256 hex of a string) and over the already-serialized payload and the
already-formatted timestamp (JSON.stringify and the Date formatting are
library behavior). -/
def signPaapiRequest (hmac : List Nat → List Nat → List Nat)
    (utf8 : String → List Nat) (toHex : List Nat → String)
    (sha256hex : String → String)
    (accessKey secretKey region host path payload amzDate : String) :
    SignResult :=
  let dateStamp := amzDate.take 8
  let stringToSign := stringToSignOf sha256hex host path payload amzDate region
  let signature :=
    paapiSignature hmac utf8 toHex secretKey dateStamp region stringToSign
  { authorizationHeader :=
      "AWS4-HMAC-SHA256" ++ " Credential=" ++ accessKey ++ "/" ++
      credentialScopeOf region dateStamp ++ ", SignedHeaders=" ++
      signedHeadersList ++ ", Signature=" ++ signature,
    amzDate := amzDate,
    payload := payload }

/-- Case-insensitive character comparison, for the regex i flag. -/
def charEqCI (a b : Char) : Bool := a.toLower = b.toLower

/-- Match a literal marker (case-insensitively) at the head of the input,
returning the remainder. -/
def matchMarker : List Char → List Char → Option (List Char)
  | [], cs => some cs
  | _ :: _, [] => none
  | m :: ms, c :: cs => if charEqCI m c then matchMarker ms cs else none

/-- ASCII alphanumeric class of the source regexes ([A-Z0-9] with the i
flag). -/
def isAlnumAscii (c : Char) : Bool :=
  ('A' ≤ c && c ≤ 'Z') || ('a' ≤ c && c ≤ 'z') || ('0' ≤ c && c ≤ '9')

/-- Take exactly n alphanumeric characters, returning them and the
remainder; none when the input runs out or a non-alphanumeric appears. -/
def takeAlnum : Nat → List Char → Option (List Char × List Char)
  | 0, cs => some ([], cs)
  | _ + 1, [] => none
  | n + 1, c :: cs =>
    if isAlnumAscii c then
      match takeAlnum n cs with
      | some (code, rest) => some (c :: code, rest)
      | none => none
    else none

/-- The lookahead of the source regexes: the code must be followed by a
slash, a question mark, or the end of the string. -/
def asinBoundary : List Char → Bool
  | [] => true
  | c :: _ => c = '/' || c = '?'

/-- Whole-pattern match attempt at one start position: marker, then ten
alphanumerics, then the boundary lookahead. -/
def matchPatternAt (marker cs : List Char) : Option (List Char) :=
  match matchMarker marker cs with
  | none => none
  | some rest =>
    match takeAlnum 10 rest with
    | none => none
    | some (code, rest2) => if asinBoundary rest2 then some code else none

/-- Leftmost match of one pattern, as the JavaScript regex engine scans:
try every start position from the left, first success wins. -/
def scanPattern (marker : List Char) : List Char → Option (List Char)
  | [] => matchPatternAt marker []
  | c :: rest =>
    match matchPatternAt marker (c :: rest) with
    | some code => some code
    | none => scanPattern marker rest

/-- First pattern in priority order that matches anywhere. -/
def tryPatterns : List (List Char) → List Char → Option (List Char)
  | [], _ => none
  | p :: ps, url =>
    match scanPattern p url with
    | some code => some code
    | none => tryPatterns ps url

/-- Upper-casing of the captured code (toUpperCase). -/
def upperCode (cs : List Char) : List Char := cs.map Char.toUpper

/-- The four path markers of extractAsin, in source order (the variant of
the route carrying all four patterns, cited by the claims). -/
def asinMarkers : List (List Char) :=
  [String.toList "/dp/", String.toList "/gp/product/",
   String.toList "/gp/aw/d/", String.toList "/product/"]

/-- extractAsin from the source: reject a falsy (empty) URL, try the four
marker patterns in order, then the generic fallback (a slash followed by a
standalone ten-character alphanumeric segment); the first match is
returned upper-cased. -/
def extractAsin (url : List Char) : Option (List Char) :=
  if url.isEmpty then none
  else
    match tryPatterns asinMarkers url with
    | some code => some (upperCode code)
    | none => (scanPattern ['/'] url).map upperCode

/-- Written from the spec's words (claim C5): one ordered list of
patterns — the four path markers in priority order followed by the
generic standalone-segment pattern — the first matching pattern wins, and
the matched code is upper-cased on output. -/
def spec_asinPatterns : List (List Char) := asinMarkers ++ [['/']]

/-- Written from the spec's words (claim C5): apply the ordered pattern
list to the resolved URL and upper-case the first match. -/
def spec_extractAsin (url : List Char) : Option (List Char) :=
  if url.isEmpty then none
  else (tryPatterns spec_asinPatterns url).map upperCode

/-- A JavaScript error value as robustFetch observes it: constructor name,
system error code (empty when absent), message. -/
structure JsError where
  errName : String
  code : String
  message : String
deriving DecidableEq

/-- An HTTP response as node-fetch returns it: final redirected URL, ok
flag and status code.  Any received response ends the retry loop. -/
structure HttpResponse where
  url : List Char
  respOk : Bool
  status : Nat
deriving DecidableEq

/-- Outcome of one fetch attempt: a response (any status), or a thrown
error (timeout/abort surfaces as an AbortError). -/
inductive FetchOutcome where
  | ok (r : HttpResponse)
  | err (e : JsError)
deriving DecidableEq

/-- Result of the whole robustFetch call. -/
inductive FetchResult where
  | resp (r : HttpResponse)
  | thrown (e : JsError)
deriving DecidableEq

/-- The unreachable-fallthrough error thrown after the loop. -/
def fallthroughError : JsError :=
  ⟨"Error", "", "robustFetch: unexpected fallthrough"⟩

/-- Transient-failure test from the source: abort (timeout), connection
reset, DNS failure, connection refused. -/
def isTransient (e : JsError) : Bool :=
  e.errName = "AbortError" || e.code = "ECONNRESET" ||
  e.code = "ENOTFOUND" || e.code = "ECONNREFUSED"

/-- The robustFetch loop body, parametric over the network (attempt number
to outcome).  `remaining + 1` is the number of attempts still allowed, so
`remaining = 0` is the isLast test of the source; a received response
returns immediately; a transient error before the last attempt sleeps
backoff times the attempt number (recorded in the wait list) and retries;
any other error is rethrown. -/
def robustAux (net : Nat → FetchOutcome) (backoff : Nat) :
    Nat → Nat → FetchResult × List Nat
  | _, 0 => (.thrown fallthroughError, [])
  | attempt, remaining + 1 =>
    match net attempt with
    | .ok r => (.resp r, [])
    | .err e =>
      if remaining = 0 ∨ isTransient e = false then (.thrown e, [])
      else
        let next := robustAux net backoff (attempt + 1) remaining
        (next.1, backoff * attempt :: next.2)

/-- robustFetch from the source: attempts numbered from 1 up to retries.
The second component collects the backoff waits actually slept. -/
def robustFetch (net : Nat → FetchOutcome) (retries backoff : Nat) :
    FetchResult × List Nat :=
  robustAux net backoff 1 retries

/-- expandShortAmazonUrl from the source: robustFetch with timeout 7000,
4 retries, base backoff 800; on success the final redirected URL (or the
input when the response URL is empty), on any error the original URL as a
graceful fallback. -/
def expandShortAmazonUrl (net : Nat → FetchOutcome) (url : List Char) :
    List Char :=
  match (robustFetch net 4 800).1 with
  | .resp r => if r.url.isEmpty then url else r.url
  | .thrown _ => url

/-- Per-URL outcome record of the expansion pipeline. -/
structure Outcome where
  url : List Char
  finalUrl : Option (List Char)
  asin : Option (List Char)
  error : Option String
deriving DecidableEq

/-- expandSingleUrl from the source: resolve, extract, and assemble the
outcome; the error marker is set exactly when no code was extracted. -/
def expandSingleUrl (net : Nat → FetchOutcome) (url : List Char) : Outcome :=
  let finalUrl := expandShortAmazonUrl net url
  let asin := extractAsin finalUrl
  { url := url
    finalUrl := some finalUrl
    asin := asin
    error := match asin with | some _ => none | none => some "ASIN not found" }

/-- The batch loop of the expand-amazon-urls route: one outcome per URL in
input order.  expandSingleUrl is total (expandShortAmazonUrl catches every
fetch error and extractAsin is a pure function), so the per-entry catch
branch of the route cannot fire for string inputs and the loop is a map.
The network behavior is per-URL (`w`), so entries are independent. -/
def expandBatch (w : List Char → Nat → FetchOutcome)
    (urls : List (List Char)) : List Outcome :=
  urls.map (fun u => expandSingleUrl (w u) u)

/-- Stored PA-API credential set as the credential store hands it over
(missing fields already normalized to empty strings by getPaapiConfig). -/
structure PaapiCfg where
  accessKey : String
  secretKey : String
  partnerTag : String
  marketplace : String
  region : String
  host : String
deriving DecidableEq

/-- Request body built by the get-items route. -/
structure GetItemsBody where
  itemIds : List String
  resources : List String
  partnerTag : String
  partnerType : String
  marketplace : String
deriving DecidableEq

/-- What the get-items route does before (or instead of) its single
outbound call: a client error response, or one signed outbound request.
Signing happens only inside the outbound constructor's branch. -/
inductive GetItemsStep where
  | badRequest (msg : String)
  | outbound (host : String) (region : String) (accessKey : String)
      (secretKey : String) (body : GetItemsBody)
deriving DecidableEq

/-- JavaScript `a || d` for strings: the default replaces a falsy (empty)
value. -/
def orDefault (s d : String) : String := if s = "" then d else s

/-- The source's `(cfg.field || default).trim() || default` normalization. -/
def orDefaultTrim (s d : String) : String := orDefault (jsTrim (orDefault s d)) d

/-- The fixed resource facet list of the request body. -/
def paapiResources : List String :=
  ["CustomerReviews.Count", "CustomerReviews.StarRating",
   "ItemInfo.ByLineInfo", "ItemInfo.ContentInfo", "ItemInfo.ContentRating",
   "ItemInfo.Classifications", "ItemInfo.ExternalIds", "ItemInfo.Features",
   "ItemInfo.ManufactureInfo", "ItemInfo.ProductInfo",
   "ItemInfo.TechnicalInfo", "ItemInfo.Title", "ItemInfo.TradeInInfo"]

/-- The validation and config gate of the get-items route, up to the
outbound call: reject an empty code list, reject a missing credential set
or falsy access/secret key, reject a partner tag blank after trimming;
only then apply defaults and hand a fully-built request to the signer and
transport. -/
def getItemsGate (cfg : Option PaapiCfg) (asins : List String) :
    GetItemsStep :=
  if asins.isEmpty then .badRequest "asins must be a non-empty array"
  else
    match cfg with
    | none => .badRequest "PA API credentials not configured"
    | some c =>
      if c.accessKey = "" ∨ c.secretKey = "" then
        .badRequest "PA API credentials not configured"
      else
        if jsTrim c.partnerTag = "" then
          .badRequest "PA API partnerTag not configured"
        else
          .outbound (orDefaultTrim c.host "webservices.amazon.com")
            (orDefaultTrim c.region "us-east-1")
            c.accessKey c.secretKey
            { itemIds := asins
              resources := paapiResources
              partnerTag := jsTrim c.partnerTag
              partnerType := "Associates"
              marketplace := orDefaultTrim c.marketplace "www.amazon.com" }

/-- The JSON body value of the secret-write route: a string, or anything
else (absent, number, object...). -/
inductive BodyValue where
  | str (s : String)
  | nonstring
deriving DecidableEq

/-- What the secret-write route does with a request. -/
inductive PutSecretStep where
  | badRequest (msg : String)
  | serverError (msg : String)
  | stored (envelope : List Char)
deriving DecidableEq

/-- The secret-write route: reject a non-string or blank-after-trim value
before any encryption; otherwise encrypt the trimmed value and store the
envelope (a failed key derivation surfaces as a server error, still
storing nothing). -/
def putSecretGate (A : AeadCipher) (C : ByteCodec) (pass : Option String)
    (iv : List Nat) (v : BodyValue) : PutSecretStep :=
  match v with
  | .nonstring => .badRequest "value is required"
  | .str s =>
    if jsTrim s = "" then .badRequest "value is required"
    else
      match encryptSecret A C pass iv (jsTrim s) with
      | some env => .stored env
      | none => .serverError "Encryption not configured properly"

/-- A concrete AEAD instance used by witnesses: ciphertext is the
plaintext, the tag is the constant byte 7, and decryption verifies the
tag. -/
def toyAead : AeadCipher where
  enc := fun _key _iv pt => (pt, [7])
  dec := fun _key _iv ct tag => if tag = [7] then some ct else none

/-- A concrete byte codec used by witnesses: each character becomes its
scalar value. -/
def toyCodec : ByteCodec where
  enc := fun s => s.toList.map Char.toNat
  dec := fun bs => String.mk (bs.map Char.ofNat)

/-- A 32-character passphrase for witnesses. -/
def pass0 : Option String := some "0123456789abcdef0123456789abcdef"

/-- A 12-byte IV for witnesses. -/
def iv0 : List Nat := [0, 1, 2, 3, 4, 5, 6, 7, 8, 9, 10, 11]

/-- A four-segment envelope: a valid envelope with a junk segment
appended. -/
def fourSegEnvelope : List Char :=
  ((encryptSecret toyAead toyCodec pass0 iv0 "hello").getD []) ++
    ':' :: ['A', 'A', 'A', 'A']

/-- The envelope the toy instances produce for the plaintext hi. -/
def envHi : List Char := (encryptSecret toyAead toyCodec pass0 iv0 "hi").getD []

/-- A network behavior for witnesses: two transient timeouts, then a
response. -/
def net0 : Nat → FetchOutcome := fun i =>
  if i < 3 then .err ⟨"AbortError", "", "request timed out"⟩
  else .ok ⟨String.toList "https://www.amazon.com/dp/B0ABCDEFGH", true, 200⟩

/-- A credential set with keys present but a blank partner tag. -/
def cfgNoTag : PaapiCfg :=
  ⟨"AKIAEXAMPLE", "secretExample", "   ", "", "", ""⟩

/-- A URL whose echo resolves to an extractable code. -/
def urlGood : List Char := String.toList "https://a.co/d/B0ABCDEFGH"

/-- A URL singled out for failure by worldB. -/
def urlBad : List Char := String.toList "https://bad.example/x"

/-- A network world that echoes every URL back as the final URL. -/
def worldA : List Char → Nat → FetchOutcome :=
  fun u _ => .ok ⟨u, true, 200⟩

/-- A network world that fails urlBad with a connection reset on every
attempt and behaves like worldA elsewhere. -/
def worldB : List Char → Nat → FetchOutcome :=
  fun u i =>
    if u = urlBad then .err ⟨"FetchError", "ECONNRESET", "socket hang up"⟩
    else worldA u i

theorem b64Val_b64Char : ∀ n < 64, b64Val (b64Char n) = some n := by decide

theorem b64Char_ne_colon (n : Nat) : b64Char n ≠ ':' := by
  rcases Nat.lt_or_ge n 64 with h | h
  · exact (by decide : ∀ m < 64, b64Char m ≠ ':') n h
  · have hd : b64Char n = 'A' := by
      unfold b64Char
      exact List.getD_eq_default _ _ (by simpa using h)
    simp [hd]

theorem b64EncodeBytes_ne_colon (bs : List Nat) :
    ∀ c ∈ b64EncodeBytes bs, c ≠ ':' := by
  induction bs using b64EncodeBytes.induct with
  | case1 => intro c hc; exact absurd hc (by simp [b64EncodeBytes])
  | case2 b1 =>
      intro c hc
      simp only [b64EncodeBytes, List.mem_cons, List.not_mem_nil,
        or_false] at hc
      rcases hc with h | h | h | h <;> subst h
      · exact b64Char_ne_colon _
      · exact b64Char_ne_colon _
      · decide
      · decide
  | case3 b1 b2 =>
      intro c hc
      simp only [b64EncodeBytes, List.mem_cons, List.not_mem_nil,
        or_false] at hc
      rcases hc with h | h | h | h <;> subst h
      · exact b64Char_ne_colon _
      · exact b64Char_ne_colon _
      · exact b64Char_ne_colon _
      · decide
  | case4 b1 b2 b3 rest ih =>
      intro c hc
      simp only [b64EncodeBytes, List.mem_cons] at hc
      rcases hc with h | h | h | h | h
      · subst h; exact b64Char_ne_colon _
      · subst h; exact b64Char_ne_colon _
      · subst h; exact b64Char_ne_colon _
      · subst h; exact b64Char_ne_colon _
      · exact ih c h

theorem b64Val_pad : b64Val '=' = none := by decide

theorem b64_roundtrip (bs : List Nat) (h : ∀ b ∈ bs, b < 256) :
    b64DecodeChars (b64EncodeBytes bs) = bs := by
  induction bs using b64EncodeBytes.induct with
  | case1 => simp [b64EncodeBytes, b64DecodeChars, b64DecodeVals]
  | case2 b1 =>
      have hb1 : b1 < 256 := h b1 (by simp)
      have h1 : b1 / 4 < 64 := by omega
      have h2 : b1 % 4 * 16 < 64 := by omega
      simp only [b64EncodeBytes, b64DecodeChars, List.filterMap_cons,
        b64Val_b64Char _ h1, b64Val_b64Char _ h2, b64Val_pad,
        List.filterMap_nil, b64DecodeVals]
      simp only [List.cons.injEq, and_true]
      omega
  | case3 b1 b2 =>
      have hb1 : b1 < 256 := h b1 (by simp)
      have hb2 : b2 < 256 := h b2 (by simp)
      have h1 : b1 / 4 < 64 := by omega
      have h2 : b1 % 4 * 16 + b2 / 16 < 64 := by omega
      have h3 : b2 % 16 * 4 < 64 := by omega
      simp only [b64EncodeBytes, b64DecodeChars, List.filterMap_cons,
        b64Val_b64Char _ h1, b64Val_b64Char _ h2, b64Val_b64Char _ h3,
        b64Val_pad, List.filterMap_nil, b64DecodeVals]
      simp only [List.cons.injEq, and_true]
      omega
  | case4 b1 b2 b3 rest ih =>
      have hb1 : b1 < 256 := h b1 (by simp)
      have hb2 : b2 < 256 := h b2 (by simp)
      have hb3 : b3 < 256 := h b3 (by simp)
      have hrest : ∀ b ∈ rest, b < 256 := by
        intro b hb; exact h b (by simp [hb])
      have h1 : b1 / 4 < 64 := by omega
      have h2 : b1 % 4 * 16 + b2 / 16 < 64 := by omega
      have h3 : b2 % 16 * 4 + b3 / 64 < 64 := by omega
      have h4 : b3 % 64 < 64 := by omega
      have ih' := ih hrest
      simp only [b64DecodeChars] at ih'
      simp only [b64EncodeBytes, b64DecodeChars, List.filterMap_cons,
        b64Val_b64Char _ h1, b64Val_b64Char _ h2, b64Val_b64Char _ h3,
        b64Val_b64Char _ h4, b64DecodeVals]
      simp only [List.cons.injEq]
      exact ⟨by omega, by omega, by omega, ih'⟩

theorem splitColon_ne_nil (cs : List Char) : splitColon cs ≠ [] := by
  induction cs with
  | nil => simp [splitColon]
  | cons c rest ih =>
      simp only [splitColon]
      split
      · simp
      · cases hs : splitColon rest with
        | nil => exact absurd hs ih
        | cons s ss => simp

theorem splitColon_no_colon (cs : List Char) (h : ∀ c ∈ cs, c ≠ ':') :
    splitColon cs = [cs] := by
  induction cs with
  | nil => rfl
  | cons c rest ih =>
      have hc : c ≠ ':' := h c (by simp)
      have hrest : ∀ x ∈ rest, x ≠ ':' := fun x hx => h x (by simp [hx])
      simp only [splitColon, if_neg hc, ih hrest]

theorem splitColon_append (a t : List Char) (h : ∀ c ∈ a, c ≠ ':') :
    splitColon (a ++ ':' :: t) = a :: splitColon t := by
  induction a with
  | nil => simp [splitColon]
  | cons c rest ih =>
      have hc : c ≠ ':' := h c (by simp)
      have hrest : ∀ x ∈ rest, x ≠ ':' := fun x hx => h x (by simp [hx])
      have ih' := ih hrest
      simp only [List.cons_append, splitColon, if_neg hc]
      rw [show rest.append (':' :: t) = rest ++ ':' :: t from rfl, ih']


theorem toyCodec_roundtrip (s : String) : toyCodec.dec (toyCodec.enc s) = s := by
  cases s with
  | mk data =>
    have hcomp : Char.ofNat ∘ Char.toNat = id := funext Char.ofNat_toNat
    simp only [toyCodec, String.toList, List.map_map, hcomp, List.map_id]

theorem encryptSecret_decryptSecret (A : AeadCipher) (C : ByteCodec)
    (pass : Option String) (iv : List Nat) (p : String) (env : List Char)
    (hA : ∀ k i pt, A.dec k i (A.enc k i pt).1 (A.enc k i pt).2 = some pt)
    (hAb : ∀ k i pt, (∀ b ∈ pt, b < 256) →
      (∀ b ∈ (A.enc k i pt).1, b < 256) ∧ (∀ b ∈ (A.enc k i pt).2, b < 256))
    (hC : C.dec (C.enc p) = p)
    (hP : ∀ b ∈ C.enc p, b < 256)
    (hIV : ∀ b ∈ iv, b < 256)
    (henc : encryptSecret A C pass iv p = some env) :
    decryptSecret A C pass env = some p := by
  unfold encryptSecret at henc
  cases hk : getAesKey C pass with
  | none => rw [hk] at henc; exact absurd henc (by simp)
  | some key =>
    rw [hk] at henc
    dsimp only at henc
    by_cases hl : key.length = 32
    · rw [if_pos hl] at henc
      simp only [Option.some.injEq] at henc
      subst henc
      obtain ⟨hctb, htagb⟩ := hAb key iv (C.enc p) hP
      have hsplit :
          splitColon (b64EncodeBytes iv ++ ':' ::
            b64EncodeBytes (A.enc key iv (C.enc p)).1 ++ ':' ::
              b64EncodeBytes (A.enc key iv (C.enc p)).2) =
          [b64EncodeBytes iv, b64EncodeBytes (A.enc key iv (C.enc p)).1,
           b64EncodeBytes (A.enc key iv (C.enc p)).2] := by
        rw [List.append_assoc, List.cons_append,
            splitColon_append _ _ (b64EncodeBytes_ne_colon iv),
            splitColon_append _ _ (b64EncodeBytes_ne_colon _),
            splitColon_no_colon _ (b64EncodeBytes_ne_colon _)]
      unfold decryptSecret
      rw [hk]
      dsimp only
      rw [if_pos hl, hsplit]
      dsimp only
      rw [b64_roundtrip iv hIV, b64_roundtrip _ hctb, b64_roundtrip _ htagb,
        hA key iv (C.enc p)]
      dsimp only
      rw [hC]
    · rw [if_neg hl] at henc; exact absurd henc (by simp)

/-- Claim C2: for every plaintext string P and every key derived from a
valid (at least 32-character) passphrase, decrypting the envelope produced
by encrypting P under that key returns exactly P, given an authenticated
cipher primitive that round-trips and produces byte output. -/
theorem cipher_roundtrip (A : AeadCipher) (C : ByteCodec)
    (pass : Option String) (iv : List Nat) (p : String) (env : List Char)
    (hA : ∀ k i pt, A.dec k i (A.enc k i pt).1 (A.enc k i pt).2 = some pt)
    (hAb : ∀ k i pt, (∀ b ∈ pt, b < 256) →
      (∀ b ∈ (A.enc k i pt).1, b < 256) ∧ (∀ b ∈ (A.enc k i pt).2, b < 256))
    (hC : C.dec (C.enc p) = p)
    (hP : ∀ b ∈ C.enc p, b < 256)
    (hIV : ∀ b ∈ iv, b < 256)
    (henc : encryptSecret A C pass iv p = some env) :
    decryptSecret A C pass env = some p :=
  encryptSecret_decryptSecret A C pass iv p env hA hAb hC hP hIV henc

set_option maxRecDepth 8000 in
/-- Witness for claim C2 at concrete inputs. -/
theorem cipher_roundtrip_witness :
    decryptSecret toyAead toyCodec pass0 envHi = some "hi" :=
  cipher_roundtrip toyAead toyCodec pass0 iv0 "hi" envHi
    (fun _ _ _ => rfl)
    (fun _ _ pt h => ⟨h, by intro b hb; simp [toyAead] at hb; omega⟩)
    (toyCodec_roundtrip "hi")
    (by decide) (by decide) (by decide)

set_option maxRecDepth 8000 in
/-- Claim C3 counterexample: an envelope with four colon-separated
segments (a valid envelope with a junk segment appended) on which decrypt
does not fail but returns the original plaintext — the claim says decrypt
fails whenever the segment count is not exactly three. -/
theorem decrypt_extra_segment_accepted :
    (splitColon fourSegEnvelope).length ≠ 3 ∧
    decryptSecret toyAead toyCodec pass0 fourSegEnvelope = some "hello" := by
  constructor
  · decide
  · decide

/-- Claim C3 (amended): decrypt splits the envelope on colons and uses the
first three segments, ignoring any extras; it fails, never returning a
plaintext, whenever there are fewer than three segments or the
authentication tag over the first three segments does not verify. -/
theorem decrypt_fail_closed (A : AeadCipher) (C : ByteCodec)
    (pass : Option String) (env : List Char)
    (h : (splitColon env).length < 3 ∨
      ∃ key s1 s2 s3 rest, getAesKey C pass = some key ∧
        splitColon env = s1 :: s2 :: s3 :: rest ∧
        A.dec key (b64DecodeChars s1) (b64DecodeChars s2)
          (b64DecodeChars s3) = none) :
    decryptSecret A C pass env = none := by
  unfold decryptSecret
  cases hk : getAesKey C pass with
  | none => rfl
  | some key =>
    dsimp only
    by_cases hl : key.length = 32
    · rw [if_pos hl]
      rcases h with hlen | ⟨key2, s1, s2, s3, rest, hkey, hsplit, hdec⟩
      · cases hs : splitColon env with
        | nil => rfl
        | cons s1 t1 =>
          cases t1 with
          | nil => rfl
          | cons s2 t2 =>
            cases t2 with
            | nil => rfl
            | cons s3 t3 =>
              rw [hs] at hlen
              simp at hlen
              omega
      · rw [hk] at hkey
        injection hkey with he
        subst he
        rw [hsplit]
        dsimp only
        rw [hdec]
    · rw [if_neg hl]

/-- Witness for the amended claim C3: a one-segment envelope fails. -/
theorem decrypt_fail_closed_witness :
    decryptSecret toyAead toyCodec pass0 ['a', 'b'] = none :=
  decrypt_fail_closed toyAead toyCodec pass0 ['a', 'b'] (Or.inl (by decide))

/-- Claim C4: key derivation fails exactly when the passphrase is absent
or shorter than 32 characters; with 32 or more characters it returns the
UTF-8 encoding of the first 32 characters; and a failed derivation makes
both encryption and decryption raise the configuration error. -/
theorem key_derivation_gate (A : AeadCipher) (C : ByteCodec)
    (pass : Option String) (iv : List Nat) (p : String) (env : List Char) :
    (getAesKey C pass = none ↔
      pass = none ∨ ∃ s, pass = some s ∧ s.length < 32) ∧
    (∀ s, pass = some s → 32 ≤ s.length →
      getAesKey C pass = some (C.enc (strTake s 32))) ∧
    (getAesKey C pass = none →
      encryptSecret A C pass iv p = none ∧
      decryptSecret A C pass env = none) := by
  refine ⟨⟨?_, ?_⟩, ?_, ?_⟩
  · intro h
    cases pass with
    | none => exact Or.inl rfl
    | some s =>
      refine Or.inr ⟨s, rfl, ?_⟩
      by_cases hc : s = "" ∨ s.length < 32
      · rcases hc with hc | hc
        · subst hc
          decide
        · exact hc
      · simp [getAesKey, hc] at h
  · intro h
    rcases h with h | ⟨s, hs, hlen⟩
    · subst h; rfl
    · subst hs
      have hor : s = "" ∨ s.length < 32 := Or.inr hlen
      simp [getAesKey, hor]
  · intro s hs hlen
    subst hs
    have hne : ¬(s = "" ∨ s.length < 32) := by
      rintro (rfl | hlt)
      · have h0 : ("" : String).length = 0 := rfl
        omega
      · omega
    simp [getAesKey, hne]
  · intro h
    constructor
    · unfold encryptSecret; rw [h]
    · unfold decryptSecret; rw [h]

/-- Witness for claim C4 at concrete inputs. -/
theorem key_derivation_gate_witness :
    getAesKey toyCodec pass0 =
      some (toyCodec.enc (strTake "0123456789abcdef0123456789abcdef" 32)) ∧
    encryptSecret toyAead toyCodec (some "tooShort") iv0 "x" = none := by
  constructor
  · exact (key_derivation_gate toyAead toyCodec pass0 iv0 "x" []).2.1
      "0123456789abcdef0123456789abcdef" rfl (by decide)
  · exact ((key_derivation_gate toyAead toyCodec (some "tooShort") iv0 "x"
      []).2.2 (by decide)).1

/-- Claim C1: the signing key is derived by an HMAC-SHA256 chain seeded
with AWS4 concatenated with the secret key, successively keyed by the date
stamp, the region, the service name and the literal aws4_request — each
step's output is the next step's key — and the final signature placed in
the authorization header is the hex HMAC-SHA256 of the string-to-sign
under that derived key. -/
theorem signing_key_chain
    (hmac : List Nat → List Nat → List Nat) (utf8 : String → List Nat)
    (toHex : List Nat → String) (sha256hex : String → String)
    (accessKey secretKey region host path payload amzDate dateStamp
      stringToSign : String) :
    kSigning hmac utf8 secretKey dateStamp region =
      spec_signingKey hmac utf8 secretKey dateStamp region ∧
    paapiSignature hmac utf8 toHex secretKey dateStamp region stringToSign =
      spec_signature hmac utf8 toHex secretKey dateStamp region
        stringToSign ∧
    (signPaapiRequest hmac utf8 toHex sha256hex accessKey secretKey region
        host path payload amzDate).authorizationHeader =
      "AWS4-HMAC-SHA256" ++ " Credential=" ++ accessKey ++ "/" ++
        credentialScopeOf region (amzDate.take 8) ++ ", SignedHeaders=" ++
        signedHeadersList ++ ", Signature=" ++
        spec_signature hmac utf8 toHex secretKey (amzDate.take 8) region
          (stringToSignOf sha256hex host path payload amzDate region) :=
  ⟨rfl, rfl, rfl⟩

theorem tryPatterns_append (ps qs : List (List Char)) (url : List Char) :
    tryPatterns (ps ++ qs) url =
      match tryPatterns ps url with
      | some c => some c
      | none => tryPatterns qs url := by
  induction ps with
  | nil => simp [tryPatterns]
  | cons p ps ih =>
    simp only [List.cons_append, tryPatterns]
    cases hsc : scanPattern p url with
    | some c => simp
    | none => simp [ih]

set_option maxRecDepth 8000 in
/-- Claim C5: extraction applies the four path-marker patterns in priority
order, case-insensitively, each requiring a ten-character alphanumeric
code bounded by a separator, query marker or end; a generic standalone
pattern is the fallback; the first match wins and the code is upper-cased.
Stated as equality with the definition written from the spec's words, plus
the spec's own concrete extraction examples and a priority example. -/
theorem extract_priority_order :
    (∀ url, extractAsin url = spec_extractAsin url) ∧
    extractAsin (String.toList "https://www.amazon.com/dp/B0ABCDEFGH/ref=foo")
      = some (String.toList "B0ABCDEFGH") ∧
    extractAsin (String.toList "https://www.amazon.com/B0ABCDEFGH")
      = some (String.toList "B0ABCDEFGH") ∧
    extractAsin (String.toList "https://x.co/XXXXXXXXXX/dp/B012345678")
      = some (String.toList "B012345678") := by
  refine ⟨?_, by decide, by decide, by decide⟩
  intro url
  unfold extractAsin spec_extractAsin spec_asinPatterns
  cases he : url.isEmpty
  · simp only [Bool.false_eq_true, if_false]
    rw [tryPatterns_append]
    cases ht : tryPatterns asinMarkers url with
    | some c => simp
    | none =>
      cases hs : scanPattern ['/'] url with
      | some c => simp [tryPatterns, hs]
      | none => simp [tryPatterns, hs]
  · simp

theorem robustAux_spec (net : Nat → FetchOutcome) (backoff : Nat) :
    ∀ r a, 1 ≤ r →
    ∃ j, 1 ≤ j ∧ j ≤ r ∧
      (robustAux net backoff a r).2 =
        (List.range' a (j - 1)).map (fun n => backoff * n) ∧
      (∀ i, a ≤ i → i < a + (j - 1) →
        ∃ e, net i = .err e ∧ isTransient e = true) ∧
      (robustAux net backoff a r).1 =
        (match net (a + (j - 1)) with
         | .ok resp => .resp resp
         | .err e => .thrown e) ∧
      (j < r → ∀ e, net (a + (j - 1)) = .err e → isTransient e = false) := by
  intro r
  induction r with
  | zero => intro a h; omega
  | succ r ih =>
    intro a _
    cases hna : net a with
    | ok resp =>
      refine ⟨1, le_refl 1, by omega, ?_, ?_, ?_, ?_⟩
      · simp [robustAux, hna]
      · intro i h1 h2; omega
      · simp [robustAux, hna]
      · intro _ e he
        rw [show a + (1 - 1) = a by omega, hna] at he
        simp at he
    | err e =>
      by_cases htr : isTransient e = true
      · by_cases hr0 : r = 0
        · subst hr0
          refine ⟨1, le_refl 1, le_refl 1, ?_, ?_, ?_, ?_⟩
          · simp [robustAux, hna]
          · intro i h1 h2; omega
          · simp [robustAux, hna]
          · intro hlt; omega
        · obtain ⟨j, hj1, hjr, hw, htrans, hres, hstop⟩ := ih (a + 1) (by omega)
          refine ⟨j + 1, by omega, by omega, ?_, ?_, ?_, ?_⟩
          · have hnext : (robustAux net backoff a (r + 1)).2 =
                backoff * a :: (robustAux net backoff (a + 1) r).2 := by
              simp [robustAux, hna, hr0, htr]
            rw [hnext, hw, show j + 1 - 1 = (j - 1) + 1 by omega,
              List.range'_succ]
            simp
          · intro i h1 h2
            by_cases hia : i = a
            · subst hia; exact ⟨e, hna, htr⟩
            · exact htrans i (by omega) (by omega)
          · have hnext : (robustAux net backoff a (r + 1)).1 =
                (robustAux net backoff (a + 1) r).1 := by
              simp [robustAux, hna, hr0, htr]
            rw [hnext, hres, show a + 1 + (j - 1) = a + (j + 1 - 1) by omega]
          · intro hlt e' he'
            rw [show a + (j + 1 - 1) = a + 1 + (j - 1) by omega] at he'
            exact hstop (by omega) e' he'
      · have htr' : isTransient e = false := by
          cases h : isTransient e
          · rfl
          · exact absurd h htr
        refine ⟨1, le_refl 1, by omega, ?_, ?_, ?_, ?_⟩
        · simp [robustAux, hna, htr']
        · intro i h1 h2; omega
        · simp [robustAux, hna, htr']
        · intro _ e' he'
          rw [show a + (1 - 1) = a by omega, hna] at he'
          injection he' with h2
          rw [← h2]
          exact htr'

/-- Claim C6: robustFetch performs a bounded number of attempts; the waits
slept form the linear schedule backoff times the attempt number for every
failed non-final attempt; every retried attempt was a transient error
(timeout/abort, reset, DNS failure, refused); the result is determined by
the first attempt that returns a response or a non-transient error, or by
the final attempt; and stopping early means that attempt received a
response or a non-transient error — a received response is never
retried. -/
theorem robustFetch_retry_schedule (net : Nat → FetchOutcome)
    (retries backoff : Nat) (h : 1 ≤ retries) :
    ∃ k, 1 ≤ k ∧ k ≤ retries ∧
      (robustFetch net retries backoff).2 =
        (List.range' 1 (k - 1)).map (fun n => backoff * n) ∧
      (∀ i, 1 ≤ i → i < k → ∃ e, net i = .err e ∧ isTransient e = true) ∧
      (robustFetch net retries backoff).1 =
        (match net k with
         | .ok resp => .resp resp
         | .err e => .thrown e) ∧
      (k < retries → ∀ e, net k = .err e → isTransient e = false) := by
  obtain ⟨j, hj1, hjr, hw, htrans, hres, hstop⟩ :=
    robustAux_spec net backoff retries 1 h
  have hjj : 1 + (j - 1) = j := by omega
  refine ⟨j, hj1, hjr, hw, ?_, ?_, ?_⟩
  · intro i h1 h2
    exact htrans i h1 (by omega)
  · rw [hjj] at hres
    exact hres
  · intro hlt e he
    refine hstop hlt e ?_
    rw [hjj]
    exact he

/-- Witness for claim C6: two transient timeouts then a response, with
retries 4 and base backoff 800, waits 800 then 1600, result from attempt
three. -/
theorem robustFetch_retry_schedule_witness :
    ∃ k, 1 ≤ k ∧ k ≤ 4 ∧
      (robustFetch net0 4 800).2 =
        (List.range' 1 (k - 1)).map (fun n => 800 * n) ∧
      (∀ i, 1 ≤ i → i < k → ∃ e, net0 i = .err e ∧ isTransient e = true) ∧
      (robustFetch net0 4 800).1 =
        (match net0 k with
         | .ok resp => .resp resp
         | .err e => .thrown e) ∧
      (k < 4 → ∀ e, net0 k = .err e → isTransient e = false) :=
  robustFetch_retry_schedule net0 4 800 (by omega)

/-- Claim C7: the expand batch returns one outcome per input URL in input
order — the i-th outcome is exactly the single-URL expansion of the i-th
input — and an entry's outcome depends only on that URL's own network
behavior, so another URL failing cannot abort or alter it. -/
theorem batch_per_url (w w' : List Char → Nat → FetchOutcome)
    (urls : List (List Char)) (i : Nat) (hi : i < urls.length)
    (hw : w urls[i] = w' urls[i]) :
    (expandBatch w urls).length = urls.length ∧
    (expandBatch w urls)[i]? = some (expandSingleUrl (w urls[i]) urls[i]) ∧
    (expandBatch w urls)[i]? = (expandBatch w' urls)[i]? := by
  have hu : urls[i]? = some urls[i] := List.getElem?_eq_getElem hi
  refine ⟨by simp [expandBatch], ?_, ?_⟩
  · unfold expandBatch
    rw [List.getElem?_map, hu]
    rfl
  · unfold expandBatch
    rw [List.getElem?_map, List.getElem?_map, hu]
    simp only [Option.map_some']
    rw [hw]

/-- Witness for claim C7: a two-URL batch where the second URL's network
behavior differs (fails in worldB) while the first entry's outcome is
unchanged. -/
theorem batch_per_url_witness :
    (expandBatch worldA [urlGood, urlBad]).length = 2 ∧
    (expandBatch worldA [urlGood, urlBad])[0]? =
      some (expandSingleUrl (worldA ([urlGood, urlBad])[0])
        (([urlGood, urlBad])[0])) ∧
    (expandBatch worldA [urlGood, urlBad])[0]? =
      (expandBatch worldB [urlGood, urlBad])[0]? :=
  batch_per_url worldA worldB [urlGood, urlBad] 0 (by decide)
    (funext fun _ => rfl)

/-- Claim C8: every completed outcome preserves the original input URL,
and exactly one of extracted-code-present and error-present holds — the
code is present exactly when the error is absent. -/
theorem outcome_exclusive (net : Nat → FetchOutcome) (url : List Char) :
    (expandSingleUrl net url).url = url ∧
    ((expandSingleUrl net url).asin.isSome ↔
      (expandSingleUrl net url).error = none) := by
  unfold expandSingleUrl
  cases h : extractAsin (expandShortAmazonUrl net url) <;> simp [h]

/-- Claim C9: the product-lookup route fails with a client configuration
error — reaching neither the signer nor the transport — whenever the
credential set is absent, the access or secret key is falsy, or the
partner tag is blank after trimming. -/
theorem paapi_config_gate (cfg : Option PaapiCfg) (asins : List String)
    (h : cfg = none ∨ ∃ c, cfg = some c ∧
      (c.accessKey = "" ∨ c.secretKey = "" ∨ jsTrim c.partnerTag = "")) :
    ∃ msg, getItemsGate cfg asins = .badRequest msg := by
  unfold getItemsGate
  by_cases ha : asins.isEmpty = true
  · exact ⟨"asins must be a non-empty array", by rw [if_pos ha]⟩
  · rw [if_neg ha]
    rcases h with rfl | ⟨c, rfl, hc⟩
    · exact ⟨"PA API credentials not configured", rfl⟩
    · dsimp only
      by_cases hks : c.accessKey = "" ∨ c.secretKey = ""
      · exact ⟨"PA API credentials not configured", by rw [if_pos hks]⟩
      · rcases hc with hc | hc | hc
        · exact absurd (Or.inl hc) hks
        · exact absurd (Or.inr hc) hks
        · exact ⟨"PA API partnerTag not configured",
            by rw [if_neg hks, if_pos hc]⟩

/-- Witness for claim C9: keys present but a whitespace partner tag. -/
theorem paapi_config_gate_witness :
    ∃ msg, getItemsGate (some cfgNoTag) ["B012345678"] = .badRequest msg :=
  paapi_config_gate (some cfgNoTag) ["B012345678"]
    (Or.inr ⟨cfgNoTag, rfl, Or.inr (Or.inr (by decide))⟩)

/-- Claim C10: the secret-write route trims the value before encrypting,
so a stored envelope decrypts to the trimmed value; an empty,
whitespace-only or non-string value is rejected before any encryption. -/
theorem secret_write_trims (A : AeadCipher) (C : ByteCodec)
    (pass : Option String) (iv : List Nat) (s : String) (env : List Char)
    (hA : ∀ k i pt, A.dec k i (A.enc k i pt).1 (A.enc k i pt).2 = some pt)
    (hAb : ∀ k i pt, (∀ b ∈ pt, b < 256) →
      (∀ b ∈ (A.enc k i pt).1, b < 256) ∧ (∀ b ∈ (A.enc k i pt).2, b < 256))
    (hC : C.dec (C.enc (jsTrim s)) = jsTrim s)
    (hP : ∀ b ∈ C.enc (jsTrim s), b < 256)
    (hIV : ∀ b ∈ iv, b < 256) :
    (putSecretGate A C pass iv (.str s) = .stored env →
      decryptSecret A C pass env = some (jsTrim s)) ∧
    (jsTrim s = "" →
      putSecretGate A C pass iv (.str s) = .badRequest "value is required") ∧
    (putSecretGate A C pass iv .nonstring =
      .badRequest "value is required") := by
  refine ⟨?_, ?_, rfl⟩
  · intro hst
    unfold putSecretGate at hst
    dsimp only at hst
    by_cases he : jsTrim s = ""
    · rw [if_pos he] at hst
      exact absurd hst (by simp)
    · rw [if_neg he] at hst
      cases henc : encryptSecret A C pass iv (jsTrim s) with
      | none =>
          rw [henc] at hst
          exact absurd hst (by simp)
      | some env2 =>
          rw [henc] at hst
          simp only [PutSecretStep.stored.injEq] at hst
          subst hst
          exact encryptSecret_decryptSecret A C pass iv (jsTrim s) env2
            hA hAb hC hP hIV henc
  · intro he
    unfold putSecretGate
    dsimp only
    rw [if_pos he]

set_option maxRecDepth 8000 in
/-- Witness for claim C10: a value with surrounding whitespace stores an
envelope that decrypts to the trimmed value. -/
theorem secret_write_trims_witness :
    decryptSecret toyAead toyCodec pass0 envHi = some (jsTrim "  hi  ") :=
  (secret_write_trims toyAead toyCodec pass0 iv0 "  hi  " envHi
    (fun _ _ _ => rfl)
    (fun _ _ pt h => ⟨h, by intro b hb; simp [toyAead] at hb; omega⟩)
    (toyCodec_roundtrip (jsTrim "  hi  "))
    (by decide) (by decide)).1 (by decide)
